import Mathlib

/-!
Verification development for the seed-mcp publishing subsystem.

This file gives a shallow embedding of the content-authorization and
publication pipeline of the repository:

* `redaction_manager.py` — the redaction rule store and the rule engine
  (`add_rule`, `remove_rule`, `load_rules`, `_get_sorted_rules`,
  `_apply_single_rule`, `apply_redactions`);
* `publishing_pipeline.py` — the publish orchestrator
  (`_validate_authorized_concepts`, `_process_concepts_for_publication`,
  `_execute_pipeline_steps`, `publish_to_public_branch`,
  `_transform_carton_links`);
* `seed_quarantine_github_v2.py` — the concept lifecycle ledger
  (`_add_missing_concepts`, `_ensure_all_concepts_tracked`,
  `_update_concept_status`, and the four status transitions);
* `auto_redaction_workflow_v2.py` — the cache-advance step of
  `execute_auto_redaction_workflow` (lines 223-228).

Python strings are modelled as Lean `String` / `List Char`; Python dicts
(insertion ordered) as association lists `List (String × α)`; external
effects (git, GitHub API, file I/O) as explicit boolean/functional
parameters recording the outcome of each effectful call.
-/

namespace Seed

/-! ### Python string primitives

`str.count` counts non-overlapping occurrences scanning from the left,
and `str.replace` replaces exactly those occurrences.  Both are modelled
with a fuel argument (the fuel is always instantiated with the length of
the scanned list, which bounds the number of scanning steps, so the
functions are total and kernel-reducible). -/

/-- Scanning core of Python `str.count content term` for a non-empty `term`:
counts leftmost non-overlapping occurrences of `pat`. -/
def countFrom (pat : List Char) : Nat → List Char → Nat
  | _, [] => 0
  | 0, _ => 0
  | fuel + 1, c :: rest =>
    if pat.isPrefixOf (c :: rest) then
      1 + countFrom pat fuel (rest.drop (pat.length - 1))
    else
      countFrom pat fuel rest

/-- Scanning core of Python `str.replace content term rep` for a non-empty
`term`: replaces leftmost non-overlapping occurrences of `pat` by `rep`. -/
def replaceFrom (pat rep : List Char) : Nat → List Char → List Char
  | _, [] => []
  | 0, s => s
  | fuel + 1, c :: rest =>
    if pat.isPrefixOf (c :: rest) then
      rep ++ replaceFrom pat rep fuel (rest.drop (pat.length - 1))
    else
      c :: replaceFrom pat rep fuel rest

/-- Python `content.count(term)`.  For the empty pattern Python counts
`len(content) + 1` occurrences (one at every gap). -/
def strCount (content term : String) : Nat :=
  if term.data.isEmpty then content.data.length + 1
  else countFrom term.data content.data.length content.data

/-- Python `content.replace(term, rep)`.  For the empty pattern Python
inserts `rep` at every gap. -/
def strReplace (content term rep : String) : String :=
  if term.data.isEmpty then ⟨rep.data ++ (content.data.map (fun c => c :: rep.data)).flatten⟩
  else ⟨replaceFrom term.data rep.data content.data.length content.data⟩

/-- Python `sub in s` (substring test), phrased through `strCount` exactly
as the rule engine observes matches. -/
def strContains (s sub : String) : Bool :=
  strCount s sub != 0

/-! ### Association-list model of Python dicts (insertion ordered) -/

/-- `d[k] = v` on an insertion-ordered dict: update in place if the key is
present, append otherwise. -/
def dictInsert {α : Type} (d : List (String × α)) (k : String) (v : α) :
    List (String × α) :=
  if d.any (fun p => p.1 == k) then
    d.map (fun p => if p.1 == k then (k, v) else p)
  else
    d ++ [(k, v)]

/-- `del d[k]` on a dict. -/
def dictRemove {α : Type} (d : List (String × α)) (k : String) :
    List (String × α) :=
  d.filter (fun p => !(p.1 == k))

/-- `d.get(k)` on a dict. -/
def lookupKey {α : Type} : List (String × α) → String → Option α
  | [], _ => none
  | p :: rest, k => if p.1 == k then some p.2 else lookupKey rest k

/-! ### RedactionManager (`redaction_manager.py`)

The rule store `self.rules` is a dict `term ↦ replacement`.  `save_rules`
serializes it to `redacted.json`; in this model a save succeeds (the
claims under study concern the in-memory store and `load_rules`). -/

/-- `RedactionManager.add_rule` (lines 74-90): rejects the empty term,
otherwise stores `rules[term] = replacement` and saves.  Returns the new
store and the success flag. -/
def add_rule (rules : List (String × String)) (sensitive_term replacement : String) :
    List (String × String) × Bool :=
  if sensitive_term == "" then (rules, false)
  else (dictInsert rules sensitive_term replacement, true)

/-- `RedactionManager.remove_rule` (lines 92-107): `False` when the term is
absent, otherwise deletes it and saves. -/
def remove_rule (rules : List (String × String)) (sensitive_term : String) :
    List (String × String) × Bool :=
  if rules.any (fun p => p.1 == sensitive_term) then
    (dictRemove rules sensitive_term, true)
  else (rules, false)

/-- State of the backing file `redacted.json` as `load_rules` can observe
it: absent, present but unparseable, or parseable with a rule mapping. -/
inductive BackingFile
  | missing
  | corrupt
  | valid (rules : List (String × String))
deriving Repr, DecidableEq

/-- `RedactionManager.load_rules` (lines 34-56) acting on the current
in-memory rules and the backing file.  A missing file is not an error: the
current (empty, at init) rule set is saved immediately and the load
succeeds.  An unparseable file returns `False` to the caller.  Returns
(in-memory rules, backing file, success). -/
def load_rules (current : List (String × String)) (file : BackingFile) :
    List (String × String) × BackingFile × Bool :=
  match file with
  | .missing => (current, .valid current, true)
  | .corrupt => (current, .corrupt, false)
  | .valid r => (r, .valid r, true)

/-- `RedactionManager.__init__` (lines 23-32): starts from an empty rule
dict and calls `load_rules`. -/
def initManager (file : BackingFile) : List (String × String) × BackingFile × Bool :=
  load_rules [] file

/-- One mutation of the rule store, for stating invariants over arbitrary
operation sequences. -/
inductive RuleOp
  | add (term replacement : String)
  | remove (term : String)

/-- Apply one `RuleOp` to the store (ignoring the success flag). -/
def applyRuleOp (rules : List (String × String)) : RuleOp → List (String × String)
  | .add t r => (add_rule rules t r).1
  | .remove t => (remove_rule rules t).1

/-- Apply a sequence of `RuleOp`s to the store. -/
def applyRuleOps (rules : List (String × String)) (ops : List RuleOp) :
    List (String × String) :=
  ops.foldl applyRuleOp rules

/-- Stable insertion (descending term length) used by `_get_sorted_rules`:
an element is placed before the first strictly shorter term, so equal
lengths keep their original relative order, matching Python's stable
`sorted(..., key=len, reverse=True)`. -/
def insertByLen (p : String × String) : List (String × String) → List (String × String)
  | [] => [p]
  | q :: rest => if q.1.length ≤ p.1.length then p :: q :: rest else q :: insertByLen p rest

/-- `RedactionManager._get_sorted_rules` (lines 118-120): rules sorted by
term length, longest first, stably. -/
def _get_sorted_rules (rules : List (String × String)) : List (String × String) :=
  rules.foldr insertByLen []

/-- `RedactionManager._apply_single_rule` (lines 122-128). -/
def _apply_single_rule (content sensitive_term replacement : String) : String × Nat :=
  let count := strCount content sensitive_term
  if count > 0 then (strReplace content sensitive_term replacement, count)
  else (content, count)

/-- Loop body of `apply_redactions` (lines 143-147): apply one rule to the
accumulated content and add its match count to the running total. -/
def applyRuleStep (acc : String × Nat) (pr : String × String) : String × Nat :=
  let r := _apply_single_rule acc.1 pr.1 pr.2
  (r.1, acc.2 + r.2)

/-- `RedactionManager.apply_redactions` (lines 130-149): fold the sorted
rules over the content, accumulating the total match count. -/
def apply_redactions (rules : List (String × String)) (content : String) : String × Nat :=
  (_get_sorted_rules rules).foldl applyRuleStep (content, 0)

/-! ### Concept lifecycle ledger (`seed_quarantine_github_v2.py`)

`authorized.json` is a dict keyed by concept name; each value is a JSON
object whose fields may individually be absent (for example
`_update_concept_status` creates `{}` and only assigns `status` and
`timestamp`), so every field is an `Option`. -/

/-- One entry of `authorized.json`. -/
structure LedgerEntry where
  concept_name : Option String := none
  status : Option String := none
  timestamp : Option String := none
  reviewer : Option String := none
  reason : Option String := none
deriving Repr, DecidableEq

/-- The ledger file contents: a dict keyed by concept name. -/
abbrev Ledger := List (String × LedgerEntry)

/-- The dict entry `_add_missing_concepts` registers for a newly
discovered concept (lines 215-221). -/
def quarantinedEntry (name now : String) : LedgerEntry :=
  { concept_name := some name
    status := some "QUARANTINED"
    timestamp := some now
    reviewer := none
    reason := none }

/-- Loop body of `_add_missing_concepts` (lines 213-222): register the
concept as `QUARANTINED` when it has no ledger entry yet. -/
def addMissingStep (now : String) (acc : Ledger × Nat) (concept_name : String) : Ledger × Nat :=
  if (lookupKey acc.1 concept_name).isSome then acc
  else (acc.1 ++ [(concept_name, quarantinedEntry concept_name now)], acc.2 + 1)

/-- `GitHubQuarantineManager._add_missing_concepts` (lines 210-223): add a
`QUARANTINED` entry for every scanned concept missing from the ledger;
`now` is `datetime.now().isoformat()`.  Returns the updated data and
`added_count`. -/
def _add_missing_concepts (all_concepts : List String) (authorized_data : Ledger)
    (now : String) : Ledger × Nat :=
  all_concepts.foldl (addMissingStep now) (authorized_data, 0)

/-- `GitHubQuarantineManager._ensure_all_concepts_tracked` (lines 225-239):
register missing concepts and save the file only when something was added
(`saveOk` is the outcome of `_save_authorized_json`).  Returns the
resulting file contents, whether the file was rewritten, and success. -/
def _ensure_all_concepts_tracked (all_concepts : List String) (authorized_data : Ledger)
    (now : String) (saveOk : Bool) : Ledger × Bool × Bool :=
  let r := _add_missing_concepts all_concepts authorized_data now
  if r.2 > 0 then
    if saveOk then (r.1, true, true) else (authorized_data, false, false)
  else (authorized_data, false, true)

/-- Python truthiness of an `Optional[str]` argument: `None` and the empty
string are falsy. -/
def optTruthy : Option String → Bool
  | none => false
  | some s => s != ""

/-- The in-place entry mutation of `_update_concept_status` (lines
304-312): `status` and `timestamp` are always assigned; `reviewer` and
`reason` only under `if reviewer:` / `if reason:`. -/
def updatedEntry (entry : LedgerEntry) (status : String) (reviewer reason : Option String)
    (now : String) : LedgerEntry :=
  let e := { entry with status := some status, timestamp := some now }
  let e := if optTruthy reviewer then { e with reviewer := reviewer } else e
  if optTruthy reason then { e with reason := reason } else e

/-- The data transformation of `_update_concept_status` (lines 299-314):
load the entry (a fresh `{}` if the concept is unknown), mutate it, store
it back under the concept name. -/
def _update_concept_status_data (authorized_data : Ledger) (concept_name status : String)
    (reviewer reason : Option String) (now : String) : Ledger :=
  dictInsert authorized_data concept_name
    (updatedEntry ((lookupKey authorized_data concept_name).getD {}) status reviewer reason now)

/-- `GitHubQuarantineManager._update_concept_status`: the mutation followed
by `_save_authorized_json`, whose outcome is `saveOk`; on a failed save the
file keeps its previous contents.  Returns (success, file contents). -/
def _update_concept_status (file : Ledger) (concept_name status : String)
    (reviewer reason : Option String) (now : String) (saveOk : Bool) : Bool × Ledger :=
  let data := _update_concept_status_data file concept_name status reviewer reason now
  if saveOk then (true, data) else (false, file)

/-- Common shape of the four status-transition operations (lines 316-386):
`_setup_git_repo` (outcome `setupOk`), then `_update_concept_status`
(local persist, outcome `saveOk`), then `_commit_and_push` (remote
propagation, outcome `pushOk`); any failure returns `False`. -/
def transitionOp (file : Ledger) (concept_name status : String)
    (reviewer reason : Option String) (now : String)
    (setupOk saveOk pushOk : Bool) : Bool × Ledger :=
  if !setupOk then (false, file)
  else
    let r := _update_concept_status file concept_name status reviewer reason now saveOk
    if !r.1 then (false, r.2)
    else if !pushOk then (false, r.2)
    else (true, r.2)

/-- `publishing_authorize_for_publishing` (lines 316-332). -/
def publishing_authorize_for_publishing (file : Ledger) (concept_name reviewer : String)
    (now : String) (setupOk saveOk pushOk : Bool) : Bool × Ledger :=
  transitionOp file concept_name "AUTHORIZED" (some reviewer)
    (some "Approved for publication") now setupOk saveOk pushOk

/-- `publishing_reject_concept` (lines 334-350). -/
def publishing_reject_concept (file : Ledger) (concept_name reason : String)
    (now : String) (setupOk saveOk pushOk : Bool) : Bool × Ledger :=
  transitionOp file concept_name "REJECTED" none (some reason) now setupOk saveOk pushOk

/-- `publishing_needs_revision_concept` (lines 352-368). -/
def publishing_needs_revision_concept (file : Ledger) (concept_name reason : String)
    (now : String) (setupOk saveOk pushOk : Bool) : Bool × Ledger :=
  transitionOp file concept_name "NEEDS_REVISION" none (some reason) now setupOk saveOk pushOk

/-- `publishing_needs_redact_concept` (lines 370-386). -/
def publishing_needs_redact_concept (file : Ledger) (concept_name reason : String)
    (now : String) (setupOk saveOk pushOk : Bool) : Bool × Ledger :=
  transitionOp file concept_name "NEEDS_REDACT" none (some reason) now setupOk saveOk pushOk

/-! ### Publishing pipeline (`publishing_pipeline.py`)

The pipeline's effectful collaborators are passed as parameters:
`stage c` is the outcome of `_copy_and_redact_concept` for concept `c`
(`none` = missing file or write failure, `some k` = staged with `k`
redactions), and `copyOk` is the outcome of
`_copy_staging_to_public_branch` (the GitHub-API upload). -/

/-- Result dictionary of the pipeline.  Keys that a given return site does
not set are `none` — in particular `published_concepts`, which the success
path of `_execute_pipeline_steps` does not set. -/
structure PubResult where
  success : Bool
  error : Option String := none
  message : Option String := none
  concepts_processed : Nat := 0
  total_redactions : Nat := 0
  published_concepts : Option (List String) := none
deriving Repr, DecidableEq

/-- `PublishingPipeline._validate_authorized_concepts` (lines 343-355):
an empty authorized list yields `(False, [], error-result)`. -/
def _validate_authorized_concepts (authorized_concepts : List String) :
    Bool × List String × PubResult :=
  if authorized_concepts.isEmpty then
    (false, [],
      { success := false
        error := some "No authorized concepts found for publication"
        concepts_processed := 0
        total_redactions := 0 })
  else (true, authorized_concepts, { success := true })

/-- `PublishingPipeline._process_concepts_for_publication` (lines 378-392):
stage each authorized concept, collecting the successfully processed names
and summing redaction counts; a failed concept is skipped. -/
def _process_concepts_for_publication (stage : String → Option Nat)
    (authorized_concepts : List String) : List String × Nat :=
  authorized_concepts.foldl
    (fun acc concept_name =>
      match stage concept_name with
      | some redaction_count => (acc.1 ++ [concept_name], acc.2 + redaction_count)
      | none => acc)
    ([], 0)

/-- `PublishingPipeline._execute_pipeline_steps` (lines 550-572): stage the
concepts, fail if nothing was staged, upload the staging area via the
GitHub API, then return the success dictionary of lines 567-572 (which
sets no `published_concepts` key). -/
def _execute_pipeline_steps (stage : String → Option Nat) (copyOk : Bool)
    (authorized_concepts : List String) : PubResult :=
  let r := _process_concepts_for_publication stage authorized_concepts
  if r.1.isEmpty then
    { success := false
      error := some "No concepts were successfully processed"
      concepts_processed := 0
      total_redactions := 0 }
  else if !copyOk then
    { success := false
      error := some "Failed to copy files to public branch"
      concepts_processed := r.1.length
      total_redactions := r.2 }
  else
    { success := true
      message := some "Successfully published concepts to public branch"
      concepts_processed := r.1.length
      total_redactions := r.2 }

/-- `PublishingPipeline.publish_to_public_branch` (lines 574-595). -/
def publish_to_public_branch (stage : String → Option Nat) (copyOk : Bool)
    (authorized_concepts : List String) : PubResult :=
  let v := _validate_authorized_concepts authorized_concepts
  if !v.1 then v.2.2
  else _execute_pipeline_steps stage copyOk v.2.1

/-! ### Link rewriting (`publishing_pipeline.py`, `_transform_carton_links`)

`re.sub` with the two patterns of lines 178 and 189 is modelled by
deterministic scanners.  Both patterns are deterministic up to one
backtracking point each, which is resolved explicitly:

* pattern 1, `\[([^\]]+)\]\(\.\./([^/]+)/[^/]*_itself\.md\)`: the greedy
  `[^/]*` takes the longest prefix of the non-`/` run that is followed by
  the literal `_itself.md)` — i.e. the split at the last occurrence of
  `_itself.md)` inside that run;
* pattern 2, `\[([^\]]+)\]\(\.\./([^/]+)(?:/[^)]*)?\.md\)`: the greedy
  `([^/]+)` first tries the full non-`/` run with the optional
  `/[^)]*\.md\)` tail; if that fails it backtracks to the last occurrence
  of `.md)` inside the run.

`re.sub` itself replaces leftmost non-overlapping matches, advancing one
character where no match starts. -/

/-- Split a list at the first occurrence of `stop`: returns the maximal
prefix free of `stop` and the remainder (which starts with `stop` when
present). -/
def runUntil (stop : Char) : List Char → List Char × List Char
  | [] => ([], [])
  | c :: rest =>
    if c == stop then ([], c :: rest)
    else
      let r := runUntil stop rest
      (c :: r.1, r.2)

/-- Split `s` as `x ++ needle ++ after` at the LAST occurrence of `needle`
(greedy star before a literal), if any. -/
def lastSplitOn (needle : List Char) : List Char → Option (List Char × List Char)
  | [] => none
  | c :: rest =>
    match lastSplitOn needle rest with
    | some r => some (c :: r.1, r.2)
    | none =>
      if needle.isPrefixOf (c :: rest) then some ([], (c :: rest).drop needle.length)
      else none

/-- The literal tail `_itself.md)` of pattern 1. -/
def itselfTag : List Char := "_itself.md)".data

/-- The literal `.md)` tail of pattern 2. -/
def mdTag : List Char := ".md)".data

/-- The literal `.md` inside pattern 2's optional group. -/
def mdNoParen : List Char := ".md".data

/-- Replacement `[{text}](/concepts/{concept}_itself.md)` built by both
`replace_link` callbacks (lines 180-183 and 191-194): the public link uses
the DIRECTORY name captured as group 2. -/
def replacementLink (text concept : List Char) : List Char :=
  '[' :: text ++ (']' :: '(' :: ("/concepts/".data ++ concept ++ itselfTag))

/-- Try to match pattern 1 at the head of the input.  On success returns
(link text, concept directory, remainder after the match). -/
def p1MatchAt (cs : List Char) : Option (List Char × List Char × List Char) :=
  match cs with
  | c0 :: cs1 =>
    if c0 = '[' then
      let t := runUntil ']' cs1
      if t.1.isEmpty then none
      else
        match t.2 with
        | c1 :: c2 :: c3 :: c4 :: c5 :: cs3 =>
          if c1 = ']' ∧ c2 = '(' ∧ c3 = '.' ∧ c4 = '.' ∧ c5 = '/' then
            let u := runUntil '/' cs3
            if u.1.isEmpty then none
            else
              match u.2 with
              | c6 :: cs5 =>
                if c6 = '/' then
                  let v := runUntil '/' cs5
                  match lastSplitOn itselfTag v.1 with
                  | some w => some (t.1, u.1, w.2 ++ v.2)
                  | none => none
                else none
              | [] => none
          else none
        | _ => none
    else none
  | [] => none

/-- `re.sub` with pattern 1 (fuel = input length bounds the scan). -/
def p1Sub : Nat → List Char → List Char
  | _, [] => []
  | 0, s => s
  | fuel + 1, c :: rest =>
    match p1MatchAt (c :: rest) with
    | some m => replacementLink m.1 m.2.1 ++ p1Sub fuel m.2.2
    | none => c :: p1Sub fuel rest

/-- Backtracking tail of pattern 2: concept shortened to the last
occurrence of `.md)` inside the non-`/` run (the concept must stay
non-empty). -/
def p2Backtrack (text : List Char) (u : List Char × List Char) :
    Option (List Char × List Char × List Char) :=
  match lastSplitOn mdTag u.1 with
  | some w => if w.1.isEmpty then none else some (text, w.1, w.2 ++ u.2)
  | none => none

/-- Try to match pattern 2 at the head of the input.  On success returns
(link text, concept, remainder after the match). -/
def p2MatchAt (cs : List Char) : Option (List Char × List Char × List Char) :=
  match cs with
  | c0 :: cs1 =>
    if c0 = '[' then
      let t := runUntil ']' cs1
      if t.1.isEmpty then none
      else
        match t.2 with
        | c1 :: c2 :: c3 :: c4 :: c5 :: cs3 =>
          if c1 = ']' ∧ c2 = '(' ∧ c3 = '.' ∧ c4 = '.' ∧ c5 = '/' then
            let u := runUntil '/' cs3
            if u.1.isEmpty then none
            else
              match u.2 with
              | c6 :: cs5 =>
                if c6 = '/' then
                  let v := runUntil ')' cs5
                  match v.2 with
                  | c7 :: cs6 =>
                    if c7 = ')' ∧ mdNoParen.isSuffixOf v.1 then some (t.1, u.1, cs6)
                    else p2Backtrack t.1 u
                  | [] => p2Backtrack t.1 u
                else p2Backtrack t.1 u
              | [] => p2Backtrack t.1 u
          else none
        | _ => none
    else none
  | [] => none

/-- `re.sub` with pattern 2. -/
def p2Sub : Nat → List Char → List Char
  | _, [] => []
  | 0, s => s
  | fuel + 1, c :: rest =>
    match p2MatchAt (c :: rest) with
    | some m => replacementLink m.1 m.2.1 ++ p2Sub fuel m.2.2
    | none => c :: p2Sub fuel rest

/-- `PublishingPipeline._transform_carton_links` (lines 169-200): apply
pattern 1 everywhere; apply pattern 2 only if pattern 1 changed nothing. -/
def _transform_carton_links (content : String) : String :=
  let transformed : String := ⟨p1Sub content.data.length content.data⟩
  if transformed == content then ⟨p2Sub content.data.length content.data⟩
  else transformed

/-! ### Cache advance (`auto_redaction_workflow_v2.py`, lines 223-228)

The `ContentDifferV2` baseline is opaque here (its implementation is an
external collaborator): `advance` stands for
`update_all_published_content` and `baseline` for the published-content
cache. -/

/-- Lines 223-228 of `execute_auto_redaction_workflow`: after the
publication attempt, read `published_concepts` from the result (default
`[]` when the key is absent) and advance the baseline only when the
publication succeeded and that list is non-empty. -/
def cacheAfterPublication {β : Type} (advance : List String → β → β)
    (publication_result : PubResult) (baseline : β) : β :=
  if publication_result.success then
    let published_concepts := publication_result.published_concepts.getD []
    if !published_concepts.isEmpty then advance published_concepts baseline
    else baseline
  else baseline

/-! ## Lemmas about the dict model -/

theorem lookupKey_append_left {α : Type} {d d2 : List (String × α)} {k : String} {v : α}
    (h : lookupKey d k = some v) : lookupKey (d ++ d2) k = some v := by
  induction d with
  | nil => simp [lookupKey] at h
  | cons p rest ih =>
    by_cases hp : p.1 = k
    · simp_all [lookupKey]
    · simp_all [lookupKey]

theorem lookupKey_append_right {α : Type} {d : List (String × α)} (d2 : List (String × α))
    {k : String} (h : lookupKey d k = none) : lookupKey (d ++ d2) k = lookupKey d2 k := by
  induction d with
  | nil => simp
  | cons p rest ih =>
    by_cases hp : p.1 = k
    · simp_all [lookupKey]
    · simp_all [lookupKey]

theorem lookupKey_eq_none {α : Type} {d : List (String × α)} {k : String}
    (h : d.any (fun p => p.1 == k) = false) : lookupKey d k = none := by
  induction d with
  | nil => rfl
  | cons p rest ih =>
    simp only [List.any_cons, Bool.or_eq_false_iff] at h
    simp [lookupKey, h.1, ih h.2]

theorem lookupKey_map_update {α : Type} {d : List (String × α)} {k : String} (v : α)
    (h : d.any (fun p => p.1 == k) = true) :
    lookupKey (d.map (fun p => if p.1 == k then (k, v) else p)) k = some v := by
  induction d with
  | nil => simp at h
  | cons p rest ih =>
    by_cases hp : p.1 = k
    · simp [lookupKey, hp]
    · simp only [List.any_cons, Bool.or_eq_true] at h
      have hb : (p.1 == k) = false := by simp [hp]
      rcases h with h | h
      · rw [hb] at h; exact absurd h (by simp)
      · simp only [List.map_cons, hb, Bool.false_eq_true, if_false, lookupKey]
        exact ih h

theorem lookupKey_dictInsert {α : Type} (d : List (String × α)) (k : String) (v : α) :
    lookupKey (dictInsert d k v) k = some v := by
  unfold dictInsert
  by_cases h : d.any (fun p => p.1 == k) = true
  · rw [if_pos h]; exact lookupKey_map_update v h
  · rw [if_neg h]
    have h2 : d.any (fun p => p.1 == k) = false := by
      cases hc : d.any (fun p => p.1 == k)
      · rfl
      · exact absurd hc h
    rw [lookupKey_append_right _ (lookupKey_eq_none h2)]
    simp [lookupKey]

theorem nodup_keys_dictInsert {α : Type} {d : List (String × α)} (k : String) (v : α)
    (h : (d.map Prod.fst).Nodup) : ((dictInsert d k v).map Prod.fst).Nodup := by
  unfold dictInsert
  by_cases ha : d.any (fun p => p.1 == k) = true
  · rw [if_pos ha, List.map_map]
    have : d.map (Prod.fst ∘ fun p => if p.1 == k then (k, v) else p) = d.map Prod.fst := by
      apply List.map_congr_left
      intro p _
      by_cases hp : p.1 = k
      · simp [hp]
      · simp [hp]
    rw [this]; exact h
  · rw [if_neg ha]
    have ha2 : d.any (fun p => p.1 == k) = false := by
      cases hc : d.any (fun p => p.1 == k)
      · rfl
      · exact absurd hc ha
    have hk : k ∉ d.map Prod.fst := by
      intro hmem
      rcases List.mem_map.mp hmem with ⟨p, hp, hfst⟩
      have h2 := List.any_eq_false.mp ha2 p hp
      exact h2 (by simp [hfst])
    simp only [List.map_append, List.map_cons, List.map_nil]
    simp [List.nodup_append, h, hk]

theorem nodup_keys_dictRemove {α : Type} {d : List (String × α)} (k : String)
    (h : (d.map Prod.fst).Nodup) : ((dictRemove d k).map Prod.fst).Nodup := by
  exact h.sublist ((List.filter_sublist d).map Prod.fst)

/-! ## C9: uniqueness of rule terms and in-place overwrite by `add_rule` -/

theorem nodup_keys_applyRuleOp {rules : List (String × String)} (op : RuleOp)
    (h : (rules.map Prod.fst).Nodup) : ((applyRuleOp rules op).map Prod.fst).Nodup := by
  cases op with
  | add t r =>
    unfold applyRuleOp add_rule
    by_cases ht : t == ""
    · simp [ht, h]
    · simp only [ht, Bool.false_eq_true, if_false]
      exact nodup_keys_dictInsert t r h
  | remove t =>
    unfold applyRuleOp remove_rule
    by_cases ht : rules.any (fun p => p.1 == t) = true
    · simp only [ht, if_true]
      exact nodup_keys_dictRemove t h
    · simp only [ht, if_false]
      exact h

/-- C9: for every non-empty term already present in the rule store,
`add_rule` with that term succeeds and overwrites the stored replacement
for that term in place (the store is mapped, keeping positions, with the
entry for the term replaced), after which the term maps to the new
replacement; and after any sequence of `add_rule` / `remove_rule`
operations starting from a store with unique terms, the terms remain
unique — the store never holds two rules for the same term. -/
theorem claim_C9 :
    (∀ (rules : List (String × String)) (t r r0 : String), t ≠ "" →
      (add_rule rules t r).2 = true
      ∧ ((t, r0) ∈ rules →
          (add_rule rules t r).1 = rules.map (fun p => if p.1 == t then (t, r) else p))
      ∧ lookupKey (add_rule rules t r).1 t = some r)
    ∧ ∀ (rules : List (String × String)), (rules.map Prod.fst).Nodup →
        ∀ ops : List RuleOp, ((applyRuleOps rules ops).map Prod.fst).Nodup := by
  constructor
  · intro rules t r r0 ht
    have hbe : (t == "") = false := by simp [ht]
    refine ⟨by simp [add_rule, hbe], ?_, ?_⟩
    · intro hmem
      have ha : rules.any (fun p => p.1 == t) = true :=
        List.any_eq_true.mpr ⟨(t, r0), hmem, by simp⟩
      simp [add_rule, hbe, dictInsert, ha]
    · simp only [add_rule, hbe, Bool.false_eq_true, if_false]
      exact lookupKey_dictInsert rules t r
  · intro rules h ops
    induction ops generalizing rules with
    | nil => exact h
    | cons op rest ih => exact ih _ (nodup_keys_applyRuleOp op h)

/-- Witness for C9 at a concrete store: overwriting the existing term
`"a"` succeeds, replaces its stored replacement in place, and the result
still has unique terms after a further removal. -/
theorem witness_C9 :
    (add_rule [("a", "1"), ("b", "2")] "a" "3").2 = true
    ∧ (add_rule [("a", "1"), ("b", "2")] "a" "3").1 = [("a", "3"), ("b", "2")]
    ∧ lookupKey (add_rule [("a", "1"), ("b", "2")] "a" "3").1 "a" = some "3"
    ∧ ((applyRuleOps [] [RuleOp.add "a" "1", RuleOp.add "b" "2", RuleOp.add "a" "3",
        RuleOp.remove "b"]).map Prod.fst).Nodup := by
  have h := claim_C9.1 [("a", "1"), ("b", "2")] "a" "3" "1" (by decide)
  refine ⟨h.1, ?_, h.2.2, ?_⟩
  · rw [h.2.1 (by simp)]; decide
  · exact claim_C9.2 [] (by simp) _

/-! ## C5: load semantics of the rule store -/

/-- C5: loading when the backing file is absent is not an error — the
freshly initialized manager keeps the empty rule set, persists it (the
file becomes a valid empty store) and reports success; loading when the
backing file is corrupt returns failure to the caller and leaves both the
rules and the file untouched. -/
theorem claim_C5 :
    initManager BackingFile.missing = ([], BackingFile.valid [], true)
    ∧ initManager BackingFile.corrupt = ([], BackingFile.corrupt, false)
    ∧ ∀ current : List (String × String),
        load_rules current BackingFile.corrupt = (current, BackingFile.corrupt, false) :=
  ⟨rfl, rfl, fun _ => rfl⟩

/-! ## C7: transitions succeed only when local persist and remote push both succeed -/

/-- C7: each of the four ledger status transitions reports success exactly
when repo setup, the local write of `authorized.json`, and the remote
commit-and-push all succeed; in particular a transition whose local write
succeeds but whose push fails returns failure. -/
theorem claim_C7 :
    ∀ (file : Ledger) (concept_name arg now : String) (setupOk saveOk pushOk : Bool),
      (publishing_authorize_for_publishing file concept_name arg now setupOk saveOk pushOk).1
        = (setupOk && saveOk && pushOk)
      ∧ (publishing_reject_concept file concept_name arg now setupOk saveOk pushOk).1
        = (setupOk && saveOk && pushOk)
      ∧ (publishing_needs_revision_concept file concept_name arg now setupOk saveOk pushOk).1
        = (setupOk && saveOk && pushOk)
      ∧ (publishing_needs_redact_concept file concept_name arg now setupOk saveOk pushOk).1
        = (setupOk && saveOk && pushOk) := by
  intro file concept_name arg now setupOk saveOk pushOk
  cases setupOk <;> cases saveOk <;> cases pushOk <;>
    simp [publishing_authorize_for_publishing, publishing_reject_concept,
      publishing_needs_revision_concept, publishing_needs_redact_concept,
      transitionOp, _update_concept_status]

/-! ## C10: frame conditions of `_update_concept_status` -/

/-- C10: a status update with `reviewer=None` (resp. `reason=None`, or an
empty string, both falsy in Python) leaves the previously recorded
reviewer (resp. reason) of the entry unchanged; a truthy value overwrites
it; status and timestamp are always overwritten. -/
theorem claim_C10 :
    ∀ (data : Ledger) (concept_name status now : String)
      (reviewer reason : Option String) (prior : LedgerEntry),
      lookupKey data concept_name = some prior →
      lookupKey (_update_concept_status_data data concept_name status reviewer reason now)
          concept_name
        = some (updatedEntry prior status reviewer reason now)
      ∧ (updatedEntry prior status reviewer reason now).status = some status
      ∧ (updatedEntry prior status reviewer reason now).timestamp = some now
      ∧ (optTruthy reviewer = false →
          (updatedEntry prior status reviewer reason now).reviewer = prior.reviewer)
      ∧ (optTruthy reason = false →
          (updatedEntry prior status reviewer reason now).reason = prior.reason)
      ∧ (optTruthy reviewer = true →
          (updatedEntry prior status reviewer reason now).reviewer = reviewer)
      ∧ (optTruthy reason = true →
          (updatedEntry prior status reviewer reason now).reason = reason) := by
  intro data concept_name status now reviewer reason prior hprior
  refine ⟨?_, ?_, ?_, ?_, ?_, ?_, ?_⟩
  · unfold _update_concept_status_data
    rw [hprior]
    exact lookupKey_dictInsert data concept_name _
  · cases hrev : optTruthy reviewer <;> cases hrsn : optTruthy reason <;>
      simp [updatedEntry, hrev, hrsn]
  · cases hrev : optTruthy reviewer <;> cases hrsn : optTruthy reason <;>
      simp [updatedEntry, hrev, hrsn]
  · intro h
    cases hrsn : optTruthy reason <;> simp [updatedEntry, h, hrsn]
  · intro h
    cases hrev : optTruthy reviewer <;> simp [updatedEntry, h, hrev]
  · intro h
    cases hrsn : optTruthy reason <;> simp [updatedEntry, h, hrsn]
  · intro h
    cases hrev : optTruthy reviewer <;> simp [updatedEntry, h, hrev]

/-- Witness for C10: a transition to `AUTHORIZED` with `reviewer=None` and
`reason=None` keeps the previously recorded reviewer and reason while
updating status and timestamp. -/
theorem witness_C10 :
    lookupKey
      (_update_concept_status_data
        [("Foo", { concept_name := some "Foo", status := some "QUARANTINED",
                   timestamp := some "t0", reviewer := some "alice", reason := some "old" })]
        "Foo" "AUTHORIZED" none none "t1") "Foo"
      = some { concept_name := some "Foo", status := some "AUTHORIZED",
               timestamp := some "t1", reviewer := some "alice", reason := some "old" } := by
  have h := claim_C10
    [("Foo", { concept_name := some "Foo", status := some "QUARANTINED",
               timestamp := some "t0", reviewer := some "alice", reason := some "old" })]
    "Foo" "AUTHORIZED" "t1" none none
    { concept_name := some "Foo", status := some "QUARANTINED",
      timestamp := some "t0", reviewer := some "alice", reason := some "old" }
    (by decide)
  rw [h.1]
  decide

/-! ## C6: self-healing registration is complete and idempotent -/

theorem lookup_addMissingStep_preserve {now : String} {acc : Ledger × Nat}
    {c : String} {v : LedgerEntry} (n : String) (h : lookupKey acc.1 c = some v) :
    lookupKey (addMissingStep now acc n).1 c = some v := by
  unfold addMissingStep
  split
  · exact h
  · exact lookupKey_append_left h

theorem foldl_addMissing_preserve {now : String} (all : List String) :
    ∀ (acc : Ledger × Nat) (c : String) (v : LedgerEntry), lookupKey acc.1 c = some v →
      lookupKey (all.foldl (addMissingStep now) acc).1 c = some v := by
  induction all with
  | nil => intro acc c v h; exact h
  | cons a t ih =>
    intro acc c v h
    exact ih _ c v (lookup_addMissingStep_preserve a h)

theorem foldl_addMissing_registered {now : String} (all : List String) :
    ∀ (acc : Ledger × Nat) (c : String), c ∈ all → lookupKey acc.1 c = none →
      lookupKey (all.foldl (addMissingStep now) acc).1 c = some (quarantinedEntry c now) := by
  induction all with
  | nil => intro acc c hc; exact absurd hc (List.not_mem_nil c)
  | cons a t ih =>
    intro acc c hc hnone
    by_cases hac : a = c
    · subst hac
      have hstep : (addMissingStep now acc a).1 = acc.1 ++ [(a, quarantinedEntry a now)] := by
        unfold addMissingStep
        rw [hnone]
        simp
      have hlook : lookupKey (addMissingStep now acc a).1 a = some (quarantinedEntry a now) := by
        rw [hstep, lookupKey_append_right _ hnone]
        simp [lookupKey]
      exact foldl_addMissing_preserve t _ a _ hlook
    · have hct : c ∈ t := by
        rcases List.mem_cons.mp hc with h | h
        · exact absurd h.symm hac
        · exact h
      have hnone2 : lookupKey (addMissingStep now acc a).1 c = none := by
        unfold addMissingStep
        split
        · exact hnone
        · rw [lookupKey_append_right _ hnone]
          simp [lookupKey, hac]
      exact ih _ c hct hnone2

theorem foldl_addMissing_nochange {now : String} (all : List String) (d : Ledger) (n : Nat)
    (h : ∀ c ∈ all, (lookupKey d c).isSome = true) :
    all.foldl (addMissingStep now) (d, n) = (d, n) := by
  induction all with
  | nil => rfl
  | cons a t ih =>
    have hstep : addMissingStep now (d, n) a = (d, n) := by
      unfold addMissingStep
      simp [h a (by simp)]
    rw [List.foldl_cons, hstep]
    exact ih (fun c hc => h c (by simp [hc]))

/-- C6: after the scan-and-register step every concept present in the
working tree has a ledger entry; a concept with no prior entry is
registered with status `QUARANTINED`, the current timestamp, reviewer
`None` and reason `None`; re-running the step on its own output registers
nothing, and `_ensure_all_concepts_tracked` then rewrites nothing and
succeeds (idempotent no-op). -/
theorem claim_C6 :
    ∀ (all_concepts : List String) (data : Ledger) (now : String),
      (∀ c ∈ all_concepts,
        (lookupKey (_add_missing_concepts all_concepts data now).1 c).isSome = true)
      ∧ (∀ c ∈ all_concepts, lookupKey data c = none →
          lookupKey (_add_missing_concepts all_concepts data now).1 c
            = some (quarantinedEntry c now))
      ∧ _add_missing_concepts all_concepts (_add_missing_concepts all_concepts data now).1 now
          = ((_add_missing_concepts all_concepts data now).1, 0)
      ∧ ∀ saveOk : Bool,
          _ensure_all_concepts_tracked all_concepts
              (_add_missing_concepts all_concepts data now).1 now saveOk
            = ((_add_missing_concepts all_concepts data now).1, false, true) := by
  intro all data now
  have htracked : ∀ c ∈ all, (lookupKey (_add_missing_concepts all data now).1 c).isSome = true := by
    intro c hc
    cases hlc : lookupKey data c with
    | some v =>
      rw [_add_missing_concepts, foldl_addMissing_preserve all (data, 0) c v hlc]
      rfl
    | none =>
      rw [_add_missing_concepts, foldl_addMissing_registered all (data, 0) c hc hlc]
      rfl
  have hidem : _add_missing_concepts all (_add_missing_concepts all data now).1 now
      = ((_add_missing_concepts all data now).1, 0) :=
    foldl_addMissing_nochange all _ 0 htracked
  refine ⟨htracked, ?_, hidem, ?_⟩
  · intro c hc hnone
    exact foldl_addMissing_registered all (data, 0) c hc hnone
  · intro saveOk
    unfold _ensure_all_concepts_tracked
    rw [hidem]
    simp

/-- Witness for C6: a working tree with one concept and an empty ledger —
the concept gets a `QUARANTINED` entry and the step is idempotent. -/
theorem witness_C6 :
    (lookupKey (_add_missing_concepts ["Foo"] [] "t").1 "Foo").isSome = true
    ∧ lookupKey (_add_missing_concepts ["Foo"] [] "t").1 "Foo"
        = some (quarantinedEntry "Foo" "t")
    ∧ _add_missing_concepts ["Foo"] (_add_missing_concepts ["Foo"] [] "t").1 "t"
        = ((_add_missing_concepts ["Foo"] [] "t").1, 0) := by
  have h := claim_C6 ["Foo"] [] "t"
  exact ⟨h.1 "Foo" (by simp), h.2.1 "Foo" (by simp) rfl, h.2.2.1⟩

/-! ## C2: behaviour of `publish` on an empty authorized set -/

/-- Counterexample to C2 as stated: with no AUTHORIZED concepts,
`publish_to_public_branch` returns a FAILURE result (the error dictionary
of `_validate_authorized_concepts`, lines 346-352), not a success with
zero concepts processed. -/
theorem counterexample_C2 :
    (publish_to_public_branch (fun _ => none) true []).success = false
    ∧ (publish_to_public_branch (fun _ => none) true []).error
        = some "No authorized concepts found for publication"
    ∧ (publish_to_public_branch (fun _ => none) true []).concepts_processed = 0 :=
  ⟨rfl, rfl, rfl⟩

/-- C2 as amended: when the set of AUTHORIZED concepts is empty,
`publish` returns a failure result carrying the error
"No authorized concepts found for publication" and zero-valued counters,
regardless of the later pipeline outcomes. -/
theorem claim_C2_amended :
    ∀ (stage : String → Option Nat) (copyOk : Bool),
      publish_to_public_branch stage copyOk []
        = { success := false
            error := some "No authorized concepts found for publication"
            message := none
            concepts_processed := 0
            total_redactions := 0
            published_concepts := none } := by
  intro stage copyOk
  rfl

/-! ## C1: the baseline advance after publication -/

/-- The half of C1 that holds: a publication result reporting failure
never advances the baseline. -/
theorem cacheAfterPublication_failure {β : Type} (advance : List String → β → β)
    (res : PubResult) (baseline : β) (h : res.success = false) :
    cacheAfterPublication advance res baseline = baseline := by
  unfold cacheAfterPublication
  rw [h]
  simp

/-- Evaluation at the failing input for C1 (code bug): a fully successful
run over the authorized concept "Foo" (staged with 2 redactions, GitHub
API upload succeeding) yields a success result that carries NO
`published_concepts` key, so the cache-advance step of
`execute_auto_redaction_workflow` leaves the baseline untouched — for
every baseline and every advance function — although the claim (and the
module docstring, and spec step 9) requires the baseline to be advanced
for exactly `["Foo"]`. -/
theorem claim_C1_code_bug :
    ∀ (β : Type) (advance : List String → β → β) (baseline : β),
      (publish_to_public_branch (fun _ => some 2) true ["Foo"]).success = true
      ∧ (publish_to_public_branch (fun _ => some 2) true ["Foo"]).concepts_processed = 1
      ∧ (publish_to_public_branch (fun _ => some 2) true ["Foo"]).published_concepts = none
      ∧ cacheAfterPublication advance
            (publish_to_public_branch (fun _ => some 2) true ["Foo"]) baseline
          = baseline := by
  intro β advance baseline
  exact ⟨rfl, rfl, rfl, rfl⟩

/-! ## C3: overlap resolution by descending term length -/

theorem mem_insertByLen {p q : String × String} {l : List (String × String)} :
    q ∈ insertByLen p l ↔ q = p ∨ q ∈ l := by
  induction l with
  | nil => simp [insertByLen]
  | cons a t ih =>
    unfold insertByLen
    split
    · simp [List.mem_cons]
    · simp only [List.mem_cons, ih]
      tauto

theorem mem_sorted_rules {q : String × String} {l : List (String × String)} :
    q ∈ _get_sorted_rules l ↔ q ∈ l := by
  induction l with
  | nil => simp [_get_sorted_rules]
  | cons a t ih =>
    have hrw : _get_sorted_rules (a :: t) = insertByLen a (_get_sorted_rules t) := rfl
    rw [hrw, mem_insertByLen, ih]
    simp [List.mem_cons]

theorem pairwise_insertByLen {p : String × String} {l : List (String × String)}
    (h : l.Pairwise (fun p q => q.1.length ≤ p.1.length)) :
    (insertByLen p l).Pairwise (fun p q => q.1.length ≤ p.1.length) := by
  induction l with
  | nil => simp [insertByLen]
  | cons a t ih =>
    rcases List.pairwise_cons.mp h with ⟨ha, ht⟩
    unfold insertByLen
    split
    · rename_i hle
      refine List.pairwise_cons.mpr ⟨?_, h⟩
      intro q hq
      rcases List.mem_cons.mp hq with rfl | hq
      · exact hle
      · exact le_trans (ha q hq) hle
    · rename_i hgt
      refine List.pairwise_cons.mpr ⟨?_, ih ht⟩
      intro q hq
      rcases mem_insertByLen.mp hq with rfl | hq
      · exact le_of_lt (Nat.lt_of_not_le hgt)
      · exact ha q hq

theorem sorted_rules_pairwise (rules : List (String × String)) :
    (_get_sorted_rules rules).Pairwise (fun p q => q.1.length ≤ p.1.length) := by
  induction rules with
  | nil => simp [_get_sorted_rules]
  | cons a t ih => exact pairwise_insertByLen ih

theorem sorted_rules_pair {A ra B rb : String} (h : A.length < B.length) :
    _get_sorted_rules [(A, ra), (B, rb)] = [(B, rb), (A, ra)] := by
  have hrw : _get_sorted_rules [(A, ra), (B, rb)]
      = insertByLen (A, ra) [(B, rb)] := rfl
  rw [hrw]
  simp only [insertByLen]
  rw [if_neg (Nat.not_le.mpr h)]

/-- Counterexample to C3 as stated: take A = "ba", B = "aba" (A is a
proper substring of B) and content "ababa", which is an occurrence of B
at position 0 overlapping an occurrence of B at position 2 (the content
is exactly "aba" ++ "ba").  The engine replaces only the first occurrence
of B and then A's rule fires INSIDE the surviving fragment of the second
occurrence of B, so the output contains A's replacement: a partial
substitution of A inside an occurrence of B. -/
theorem counterexample_C3 :
    apply_redactions [("ba", "[A]"), ("aba", "[B]")] "ababa" = ("[B][A]", 2)
    ∧ "ababa".data = "aba".data ++ "ba".data
    ∧ strContains "[B][A]" "[A]" = true := by
  refine ⟨by decide, by decide, by decide⟩

/-- C3 as amended: `apply_redactions` applies the rules in descending
order of term length (the sorted rule list is pairwise non-increasing in
term length), and for a store holding exactly the rules A ↦ ra and
B ↦ rb with A shorter than B, it coincides with applying B's rule first
(replacing all leftmost non-overlapping occurrences of B) and A's rule
second — so A's rule can only match what survives B's full replacement;
a partial substitution of A inside B remains possible only where
occurrences of B overlap one another (see the counterexample). -/
theorem claim_C3_amended :
    (∀ rules : List (String × String),
        (_get_sorted_rules rules).Pairwise (fun p q => q.1.length ≤ p.1.length))
    ∧ ∀ (A ra B rb content : String), A.length < B.length →
        apply_redactions [(A, ra), (B, rb)] content
          = ((_apply_single_rule (_apply_single_rule content B rb).1 A ra).1,
             (_apply_single_rule content B rb).2
               + (_apply_single_rule (_apply_single_rule content B rb).1 A ra).2) := by
  constructor
  · exact sorted_rules_pairwise
  · intro A ra B rb content h
    unfold apply_redactions
    rw [sorted_rules_pair h]
    simp [applyRuleStep]

/-- Witness for C3 (amended): at A = "a", B = "ab", the engine applies
B's rule before A's. -/
theorem witness_C3 :
    ("a" : String).length < ("ab" : String).length
    ∧ apply_redactions [("a", "r"), ("ab", "s")] "abc"
        = ((_apply_single_rule (_apply_single_rule "abc" "ab" "s").1 "a" "r").1,
           (_apply_single_rule "abc" "ab" "s").2
             + (_apply_single_rule (_apply_single_rule "abc" "ab" "s").1 "a" "r").2) :=
  ⟨by decide, claim_C3_amended.2 "a" "r" "ab" "s" "abc" (by decide)⟩

/-! ## C4: idempotence of `apply_redactions` -/

theorem strContains_false_count {s sub : String} (h : strContains s sub = false) :
    strCount s sub = 0 := by
  unfold strContains at h
  simpa using h

theorem foldl_applyRuleStep_no_match (l : List (String × String)) (c : String) (n : Nat)
    (h : ∀ p ∈ l, strCount c p.1 = 0) : l.foldl applyRuleStep (c, n) = (c, n) := by
  induction l generalizing n with
  | nil => rfl
  | cons p t ih =>
    have hp : strCount c p.1 = 0 := h p (by simp)
    have hstep : applyRuleStep (c, n) p = (c, n) := by
      simp [applyRuleStep, _apply_single_rule, hp]
    rw [List.foldl_cons, hstep]
    exact ih n (fun q hq => h q (by simp [hq]))

/-- Counterexample to C4 as stated: with the single rule "ab" ↦ "a" —
whose replacement does not contain the term — redacting "abb" yields
"ab": the replacement abuts the surviving text and recreates the term
across the seam, so a second application is NOT a no-op (it reports one
further match and changes the content again). -/
theorem counterexample_C4 :
    strContains "a" "ab" = false
    ∧ apply_redactions [("ab", "a")] "abb" = ("ab", 1)
    ∧ apply_redactions [("ab", "a")] (apply_redactions [("ab", "a")] "abb").1 = ("a", 1)
    ∧ apply_redactions [("ab", "a")] (apply_redactions [("ab", "a")] "abb").1
        ≠ ((apply_redactions [("ab", "a")] "abb").1, 0) := by
  refine ⟨by decide, by decide, by decide, by decide⟩

/-- C4 as amended: for every content string and rule set such that no
rule's term occurs in the once-redacted output (in particular, rule terms
recreated by a replacement abutting surviving text are excluded, not just
terms occurring in replacement texts), the second application changes
nothing and reports zero matches. -/
theorem claim_C4_amended (rules : List (String × String)) (content : String)
    (h : ∀ p ∈ rules, strContains (apply_redactions rules content).1 p.1 = false) :
    apply_redactions rules (apply_redactions rules content).1
      = ((apply_redactions rules content).1, 0) := by
  have h2 : ∀ p ∈ _get_sorted_rules rules,
      strCount (apply_redactions rules content).1 p.1 = 0 :=
    fun p hp => strContains_false_count (h p (mem_sorted_rules.mp hp))
  exact foldl_applyRuleStep_no_match (_get_sorted_rules rules)
    (apply_redactions rules content).1 0 h2

/-- Witness for C4 (amended): redacting "a SECRET b" with the rule
"SECRET" ↦ "[X]" leaves no occurrence of the term, and the second
application is the identity with zero matches. -/
theorem witness_C4 :
    (∀ p ∈ [("SECRET", "[X]")],
      strContains (apply_redactions [("SECRET", "[X]")] "a SECRET b").1 p.1 = false)
    ∧ apply_redactions [("SECRET", "[X]")]
          (apply_redactions [("SECRET", "[X]")] "a SECRET b").1
        = ((apply_redactions [("SECRET", "[X]")] "a SECRET b").1, 0) :=
  ⟨by decide, claim_C4_amended _ _ (by decide)⟩

/-! ## C8: the staging link rewrite -/

theorem runUntil_append {stop : Char} {a : List Char} (b : List Char) (h : stop ∉ a) :
    runUntil stop (a ++ stop :: b) = (a, stop :: b) := by
  induction a with
  | nil => simp [runUntil]
  | cons c a2 ih =>
    have hc : c ≠ stop := fun hcs => h (by simp [hcs])
    have ha2 : stop ∉ a2 := fun hm => h (by simp [hm])
    simp [runUntil, hc, ih ha2]

theorem runUntil_all {stop : Char} {a : List Char} (h : stop ∉ a) :
    runUntil stop a = (a, []) := by
  induction a with
  | nil => rfl
  | cons c a2 ih =>
    have hc : c ≠ stop := fun hcs => h (by simp [hcs])
    have ha2 : stop ∉ a2 := fun hm => h (by simp [hm])
    simp [runUntil, hc, ih ha2]

theorem lastSplitOn_none_of_short {needle s : List Char} (h : s.length < needle.length) :
    lastSplitOn needle s = none := by
  induction s with
  | nil => rfl
  | cons c rest ih =>
    have hrest : rest.length < needle.length := Nat.lt_of_le_of_lt (Nat.le_succ _) h
    have hpre : needle.isPrefixOf (c :: rest) = false := by
      cases hp : needle.isPrefixOf (c :: rest)
      · rfl
      · have := (List.isPrefixOf_iff_prefix.mp hp).length_le
        omega
    simp [lastSplitOn, ih hrest, hpre]

theorem lastSplitOn_append_self {needle : List Char} (x : List Char) (hn : needle ≠ []) :
    lastSplitOn needle (x ++ needle) = some (x, []) := by
  induction x with
  | nil =>
    cases needle with
    | nil => exact absurd rfl hn
    | cons n0 nt =>
      have hshort : lastSplitOn (n0 :: nt) nt = none :=
        lastSplitOn_none_of_short (by simp)
      have hpre : (n0 :: nt).isPrefixOf (n0 :: nt) = true := by
        simp [List.isPrefixOf_iff_prefix]
      simp [lastSplitOn, hshort, hpre, List.drop_length]
  | cons c x2 ih =>
    simp [lastSplitOn, ih]

theorem p1MatchAt_link {text other base : List Char}
    (htne : text ≠ []) (htm : ']' ∉ text)
    (hone : other ≠ []) (hom : '/' ∉ other) (hbm : '/' ∉ base) :
    p1MatchAt ('[' :: (text ++ (']' :: '(' :: '.' :: '.' :: '/' ::
        (other ++ ('/' :: (base ++ itselfTag))))))
      = some (text, other, []) := by
  have hmid : ('/' : Char) ∉ base ++ itselfTag := by
    intro hmem
    rcases List.mem_append.mp hmem with hmem | hmem
    · exact hbm hmem
    · revert hmem
      decide
  have htag : itselfTag ≠ [] := by decide
  simp only [p1MatchAt, if_pos rfl, runUntil_append _ htm]
  simp [List.isEmpty_iff, htne, hone, runUntil_append _ hom, runUntil_all hmid,
    lastSplitOn_append_self _ htag]

theorem p1Sub_link {text other base : List Char}
    (htne : text ≠ []) (htm : ']' ∉ text)
    (hone : other ≠ []) (hom : '/' ∉ other) (hbm : '/' ∉ base) :
    p1Sub ('[' :: (text ++ (']' :: '(' :: '.' :: '.' :: '/' ::
        (other ++ ('/' :: (base ++ itselfTag)))))).length
      ('[' :: (text ++ (']' :: '(' :: '.' :: '.' :: '/' ::
        (other ++ ('/' :: (base ++ itselfTag))))))
      = replacementLink text other := by
  rw [List.length_cons]
  simp only [p1Sub, p1MatchAt_link htne htm hone hom hbm]
  simp

theorem link_ne_replacement {text other base : List Char} :
    ('[' :: (text ++ (']' :: '(' :: '.' :: '.' :: '/' ::
        (other ++ ('/' :: (base ++ itselfTag))))) : List Char)
      ≠ replacementLink text other := by
  intro h
  have hchars : ("/concepts/".data : List Char)
      = '/' :: 'c' :: 'o' :: 'n' :: 'c' :: 'e' :: 'p' :: 't' :: 's' :: '/' :: [] := by
    decide
  simp only [replacementLink, hchars, List.cons_append, List.append_assoc,
    List.cons.injEq, true_and] at h
  have h3 := List.append_cancel_left h
  simp at h3

/-- C8 as amended: the rewrite turns every markdown link
`[text](../Other/Base_itself.md)` — relative link into a concept
directory `Other`, target basename ending in `_itself.md` — into
`[text](/concepts/Other_itself.md)`: the public filename is derived from
the DIRECTORY name `Other`, not from the link's basename.  (For the links
of the canonical Carton shape `../Other/Other_itself.md`, where the
basename is the directory name plus `_itself.md`, this is exactly
`/concepts/Other_itself.md`, as in the spec scenario.)  Side conditions:
the link text is non-empty without a closing bracket, and the directory
and basename segments contain no slash. -/
theorem claim_C8_amended :
    ∀ (text other base : List Char), text ≠ [] → ']' ∉ text → other ≠ [] →
      '/' ∉ other → '/' ∉ base →
      _transform_carton_links
          ⟨'[' :: (text ++ (']' :: '(' :: '.' :: '.' :: '/' ::
            (other ++ ('/' :: (base ++ itselfTag)))))⟩
        = ⟨replacementLink text other⟩ := by
  intro text other base htne htm hone hom hbm
  have hne : (⟨replacementLink text other⟩ : String)
      ≠ ⟨'[' :: (text ++ (']' :: '(' :: '.' :: '.' :: '/' ::
        (other ++ ('/' :: (base ++ itselfTag)))))⟩ := by
    intro h
    exact link_ne_replacement (congrArg String.data h).symm
  simp only [_transform_carton_links]
  rw [p1Sub_link htne htm hone hom hbm]
  rw [if_neg (by simp [beq_false_of_ne hne])]

/-- Witness for C8 (amended), which is exactly the spec scenario: the link
`[Other](../Other_Concept/Other_Concept_itself.md)` is transformed to
`[Other](/concepts/Other_Concept_itself.md)`. -/
theorem witness_C8 :
    _transform_carton_links "[Other](../Other_Concept/Other_Concept_itself.md)"
      = "[Other](/concepts/Other_Concept_itself.md)" := by
  have h := claim_C8_amended "Other".data "Other_Concept".data "Other_Concept".data
    (by decide) (by decide) (by decide) (by decide) (by decide)
  have e1 : ("[Other](../Other_Concept/Other_Concept_itself.md)" : String)
      = ⟨'[' :: ("Other".data ++ (']' :: '(' :: '.' :: '.' :: '/' ::
          ("Other_Concept".data ++ ('/' :: ("Other_Concept".data ++ itselfTag)))))⟩ := by
    decide
  have e2 : ("[Other](/concepts/Other_Concept_itself.md)" : String)
      = ⟨replacementLink "Other".data "Other_Concept".data⟩ := by
    decide
  rw [e1, e2]
  exact h

/-- Counterexample to C8 as stated: the link
`[Other](../Other/Other_x_itself.md)` has the claimed shape
`../Other/Other_suffix.md` (directory `Other`, suffix `x_itself`), but
the code rewrites it to `/concepts/Other_itself.md` — built from the
directory name — and NOT to the claimed `/concepts/Other_x_itself.md`. -/
theorem counterexample_C8 :
    _transform_carton_links "[Other](../Other/Other_x_itself.md)"
      = "[Other](/concepts/Other_itself.md)"
    ∧ ("[Other](/concepts/Other_itself.md)" : String)
        ≠ "[Other](/concepts/Other_x_itself.md)" := by
  refine ⟨by decide, by decide⟩

end Seed
